import Mathlib

/-!
Verification of the gad download orchestrator against its design document.

The development shallowly embeds the relevant parts of the Go sources:
the Existing-Output Index (`DirectoryCache` in `pkg/download`), the exit-status
mapping of `cmd/gad/main.go`, and — for the components whose implementation
files are not among the available sources (Request Cadence Guard, Single-Job
Executor, Scheduler queue) — models written from the design document itself,
each marked `Modelled from the spec:` in its doc comment.
-/

namespace Gad

/-- A directory entry as returned by Go's `os.ReadDir`: a name plus whether the
entry is a directory (`entry.IsDir()`). -/
structure DirEntry where
  name : String
  isDir : Bool
deriving DecidableEq, Repr

/-- The possible results of `os.ReadDir dir` as discriminated by
`NewDirectoryCache`: a successful listing, a "directory absent" error
(`os.IsNotExist err`), or any other I/O error. -/
inductive ReadDirResult where
  | ok (entries : List DirEntry)
  | notExist
  | ioErr (msg : String)
deriving DecidableEq, Repr

/-- `DirectoryCache` from `pkg/download`: the set of file names observed in the
target directory at construction time.  The Go struct's `sync.RWMutex` guards
reads only; the map of file names is modelled as a list of keys. -/
structure DirectoryCache where
  files : List String
deriving DecidableEq, Repr

/-- `NewDirectoryCache(dir)`: reads the directory; on `os.IsNotExist` returns
the empty cache with no error; on any other read error returns the error; on
success indexes the names of the non-directory entries. -/
def NewDirectoryCache (r : ReadDirResult) : Except String DirectoryCache :=
  match r with
  | .ok entries => .ok ⟨(entries.filter (fun e => !e.isDir)).map (fun e => e.name)⟩
  | .notExist => .ok ⟨[]⟩
  | .ioErr m => .error m

/-- `(*DirectoryCache).CheckIfEpisodeExists(name)`: looks up `name+".mp4"`,
then `name+".ts"`, then the bare `name` in the indexed set, returning true on
the first hit. -/
def DirectoryCache.CheckIfEpisodeExists (c : DirectoryCache) (name : String) : Bool :=
  if c.files.contains (name ++ ".mp4") then true
  else if c.files.contains (name ++ ".ts") then true
  else if c.files.contains name then true
  else false

/-- A Go map read `_, ok := m[k]`: yields the presence bit together with the
map state the read leaves behind (map reads do not modify the map). -/
def mapRead (files : List String) (k : String) : Bool × List String :=
  (files.contains k, files)

/-- `CheckIfEpisodeExists` rebuilt operation by operation from the Go body,
threading the receiver's map through each of the three reads so that the
effect of the method on the cache is explicit in the result. -/
def DirectoryCache.checkRun (c : DirectoryCache) (name : String) :
    Bool × DirectoryCache :=
  let r1 := mapRead c.files (name ++ ".mp4")
  if r1.1 then (true, ⟨r1.2⟩)
  else
    let r2 := mapRead r1.2 (name ++ ".ts")
    if r2.1 then (true, ⟨r2.2⟩)
    else
      let r3 := mapRead r2.2 name
      if r3.1 then (true, ⟨r3.2⟩) else (false, ⟨r3.2⟩)

/-- A serialization of any interleaving of concurrent readers: the cache state
after a sequence of `CheckIfEpisodeExists` calls, each threaded through
`checkRun`. -/
def runQueries (c : DirectoryCache) : List String → DirectoryCache
  | [] => c
  | n :: ns => runQueries (c.checkRun n).2 ns

theorem checkRun_state_eq (c : DirectoryCache) (n : String) :
    (c.checkRun n).2 = c := by
  dsimp only [DirectoryCache.checkRun, mapRead]
  split_ifs <;> rfl

theorem checkRun_fst_eq (c : DirectoryCache) (n : String) :
    (c.checkRun n).1 = c.CheckIfEpisodeExists n := by
  dsimp only [DirectoryCache.checkRun, DirectoryCache.CheckIfEpisodeExists, mapRead]
  split_ifs <;> rfl

/-- C2: `CheckIfEpisodeExists n` returns true exactly when the set of
filenames observed at construction contains the remuxed container name
`n ++ ".mp4"`, the raw-segment container name `n ++ ".ts"`, or the bare
logical name `n`. -/
theorem checkIfEpisodeExists_iff (c : DirectoryCache) (n : String) :
    c.CheckIfEpisodeExists n = true ↔
      (n ++ ".mp4") ∈ c.files ∨ (n ++ ".ts") ∈ c.files ∨ n ∈ c.files := by
  unfold DirectoryCache.CheckIfEpisodeExists
  split <;> rename_i h1
  · simp_all
  · split <;> rename_i h2
    · simp_all
    · split <;> rename_i h3 <;> simp_all

/-- C3: building the index over an absent directory succeeds with an empty
index, whose `CheckIfEpisodeExists` is false on every name; and the
construction returns an error exactly when the directory read failed with an
I/O error other than "directory absent". -/
theorem newDirectoryCache_absent_and_errors :
    (∃ c, NewDirectoryCache .notExist = .ok c ∧
       ∀ n, c.CheckIfEpisodeExists n = false) ∧
    (∀ r : ReadDirResult,
       (∃ e, NewDirectoryCache r = .error e) ↔ ∃ m, r = .ioErr m) := by
  constructor
  · exact ⟨⟨[]⟩, rfl, fun n => rfl⟩
  · intro r
    constructor
    · rintro ⟨e, he⟩
      cases r with
      | ok entries => simp [NewDirectoryCache] at he
      | notExist => simp [NewDirectoryCache] at he
      | ioErr m => exact ⟨m, rfl⟩
    · rintro ⟨m, rfl⟩
      exact ⟨m, rfl⟩

/-- C8: after construction the index is never mutated: each
`CheckIfEpisodeExists` call leaves the receiver exactly as it found it, so the
cache after any sequence of calls — any serialization of concurrent readers —
is the cache it started as. -/
theorem checkIfEpisodeExists_no_side_effects (c : DirectoryCache)
    (n : String) (qs : List String) :
    (c.checkRun n).2 = c ∧ runQueries c qs = c := by
  refine ⟨checkRun_state_eq c n, ?_⟩
  induction qs with
  | nil => rfl
  | cons q qs ih => simpa [runQueries, checkRun_state_eq] using ih

/-- C10: only non-directory entries are indexed: every directory entry's name
is absent from the built index, and if the directory holds only
subdirectories — in particular ones named `n`, `n ++ ".mp4"` and `n ++ ".ts"` —
then `CheckIfEpisodeExists n` is false. -/
theorem directories_not_indexed (entries : List DirEntry) (n : String)
    (c : DirectoryCache) (hc : NewDirectoryCache (.ok entries) = .ok c)
    (hdirs : ∀ e ∈ entries, e.isDir = true) :
    (∀ e ∈ entries, e.name ∉ c.files) ∧ c.CheckIfEpisodeExists n = false := by
  have hfiles : c.files = [] := by
    have : NewDirectoryCache (.ok entries) =
        .ok ⟨(entries.filter (fun e => !e.isDir)).map (fun e => e.name)⟩ := rfl
    rw [this] at hc
    have hnil : entries.filter (fun e => !e.isDir) = [] := by
      apply List.filter_eq_nil_iff.mpr
      intro e he
      simp [hdirs e he]
    cases hc
    simp [hnil]
  constructor
  · intro e _ hmem
    rw [hfiles] at hmem
    exact List.not_mem_nil _ hmem
  · unfold DirectoryCache.CheckIfEpisodeExists
    rw [hfiles]
    rfl

/-- Witness for C10 at a concrete directory listing made of subdirectories
named exactly the three probed variants. -/
theorem directories_not_indexed_witness :
    (∀ e ∈ [DirEntry.mk "x.mp4" true, DirEntry.mk "x.ts" true, DirEntry.mk "x" true],
       e.name ∉ (DirectoryCache.mk []).files) ∧
    (DirectoryCache.mk []).CheckIfEpisodeExists "x" = false :=
  directories_not_indexed
    [DirEntry.mk "x.mp4" true, DirEntry.mk "x.ts" true, DirEntry.mk "x" true]
    "x" (DirectoryCache.mk []) rfl (by decide)

/-! ## Exit status mapping of `cmd/gad/main.go` -/

/-- The outcome a download handler reports back to `main`: Go's `error` return
value, nil or non-nil. -/
inductive RunOutcome where
  | success
  | failure (msg : String)
deriving DecidableEq, Repr

/-- The branch `main` takes after setup, from `cmd/gad/main.go`: a single
download (`args.Url` and `args.Extractor` both set), a series download
(`args.Url` set, `args.Extractor` empty), or no URL given. -/
inductive MainMode where
  | single (o : RunOutcome)
  | series (o : RunOutcome)
  | noUrl
deriving DecidableEq, Repr

/-- The process exit status `main` produces on each branch, embedded from
`cmd/gad/main.go` lines 82-100: a failed single download calls `os.Exit(1)`
and a successful one `os.Exit(0)`; a failed series download only logs the
error (`slog.Error`) and `main` then returns normally, so the process exits 0
either way; a missing URL calls `os.Exit(1)`. -/
def mainExit : MainMode → Nat
  | .single .success => 0
  | .single (.failure _) => 1
  | .series .success => 0
  | .series (.failure _) => 0
  | .noUrl => 1

/-- C1: the code contradicts the claimed exit-status mapping: a series run
whose handler reports a failure (a failed scrape or a download-manager error,
which `handleSeriesDownload` returns) still makes the process exit with
status 0, because `main` only logs the error on that branch. -/
theorem seriesFailureExitsZero :
    mainExit (.series (.failure "failed to handle series download")) = 0 := rfl

/-! ## Request Cadence Guard

Modelled from the spec: the Cadence Guard's implementation (in
`pkg/download`) is not among the available sources; sections 4.3 and 8 of the
design document and the CLI flag `--ddos-wait-episodes` ("Amount of requests
before waiting", default 4) fix its behaviour. -/

/-- Modelled from the spec: `CadenceState` — { requests-since-pause counter,
threshold, pause duration }. -/
structure CadenceState where
  count : Nat
  threshold : Nat
  pauseMs : Nat
deriving DecidableEq, Repr

/-- Modelled from the spec: `beforeRequest()`.  The design document's
mock-clock test (threshold 4 makes the 5th call block) and the CLI flag's
"amount of requests before waiting" semantics pin the behaviour down: a call
finding that the counter has already reached the threshold sleeps for the
pause duration and restarts the count with itself as the first request of the
new window; otherwise the call just increments the counter.  Returns whether
this call paused, together with the new state. -/
def beforeRequest (s : CadenceState) : Bool × CadenceState :=
  if s.threshold ≤ s.count then
    (true, { s with count := 1 })
  else
    (false, { s with count := s.count + 1 })

/-- The guard state after `n` calls to `beforeRequest`. -/
def iterateGuard (s : CadenceState) : Nat → CadenceState
  | 0 => s
  | n + 1 => (beforeRequest (iterateGuard s n)).2

/-- The pause flags of the first `n` calls to `beforeRequest`, in call
order. -/
def pauseTrace (s : CadenceState) : Nat → List Bool
  | 0 => []
  | n + 1 => (beforeRequest s).1 :: pauseTrace (beforeRequest s).2 n

theorem iterateGuard_below_threshold (T p : Nat) :
    ∀ n, n ≤ T → iterateGuard ⟨0, T, p⟩ n = ⟨n, T, p⟩ := by
  intro n
  induction n with
  | zero => intro _; rfl
  | succ k ih =>
    intro hk
    have hkT : k < T := Nat.lt_of_succ_le hk
    have : iterateGuard ⟨0, T, p⟩ k = ⟨k, T, p⟩ := ih (Nat.le_of_lt hkT)
    simp [iterateGuard, this, beforeRequest, Nat.not_le.mpr hkT]

/-- C4 counterexample: with threshold 4 the counter reaches the threshold at
the 4th call, yet none of the first four calls sleeps — refuting "when the
counter reaches the configured threshold the calling execution sleeps ... and
then resets the counter to zero" with the 4th call as the concrete input. -/
theorem counterReachesThresholdWithoutPause :
    (iterateGuard ⟨0, 4, 60000⟩ 4).count = 4 ∧
      pauseTrace ⟨0, 4, 60000⟩ 4 = [false, false, false, false] := by decide

/-- C4 amended: each `beforeRequest` call that finds the shared counter still
below the threshold merely increments it and does not pause; the call that
finds the counter at the threshold T is the one that sleeps for the pause
duration and restarts the count, so with threshold 4 the 5th call is the one
that blocks, after which the counter holds only that call. -/
theorem cadenceGuardPausesAfterThreshold (T p : Nat) (hT : 0 < T) :
    (∀ n, n < T → (beforeRequest (iterateGuard ⟨0, T, p⟩ n)).1 = false) ∧
      (beforeRequest (iterateGuard ⟨0, T, p⟩ T)).1 = true ∧
      (iterateGuard ⟨0, T, p⟩ (T + 1)).count = 1 := by
  refine ⟨?_, ?_, ?_⟩
  · intro n hn
    rw [iterateGuard_below_threshold T p n (Nat.le_of_lt hn)]
    simp [beforeRequest, Nat.not_le.mpr hn]
  · rw [iterateGuard_below_threshold T p T (Nat.le_refl T)]
    simp [beforeRequest]
  · show (beforeRequest (iterateGuard ⟨0, T, p⟩ T)).2.count = 1
    rw [iterateGuard_below_threshold T p T (Nat.le_refl T)]
    simp [beforeRequest]

/-- Witness for the amended C4 at the configuration of the spec's mock-clock
test: threshold 4, pause 60000 ms — the 5th call is the one that pauses. -/
theorem cadenceGuardPausesAfterThreshold_witness :
    (∀ n, n < 4 → (beforeRequest (iterateGuard ⟨0, 4, 60000⟩ n)).1 = false) ∧
      (beforeRequest (iterateGuard ⟨0, 4, 60000⟩ 4)).1 = true ∧
      (iterateGuard ⟨0, 4, 60000⟩ (4 + 1)).count = 1 :=
  cadenceGuardPausesAfterThreshold 4 60000 (by decide)

/-! ## Single-Job Executor

Modelled from the spec: the executor's implementation (in `pkg/download`) is
not among the available sources; section 4.4 of the design document fixes the
retry loop. -/

/-- Outcome of one remote fetch attempt, as classified by the design
document's error taxonomy. -/
inductive AttemptResult where
  | success
  | transient (reason : String)
  | permanent (reason : String)
deriving DecidableEq, Repr

/-- `execute`'s result type: Completed, Skipped, or Failed with a reason. -/
inductive ExecOutcome where
  | Completed
  | Skipped
  | Failed (reason : String)
deriving DecidableEq, Repr

/-- What an execution leaves behind: its outcome, the number of remote fetch
attempts it issued, and whether a temporary file remains on disk. -/
structure ExecResult where
  outcome : ExecOutcome
  fetches : Nat
  tempLeft : Bool
deriving DecidableEq, Repr

/-- Modelled from the spec: the executor's attempt loop (section 4.4, step 2).
`oracle k` is the remote's response to the k-th fetch attempt, `fuel` the
number of attempts still allowed, `lastReason` the reason of the last failed
attempt.  Exhausting all attempts yields `Failed lastReason` with the
leftover temporary file deleted; a success renames the temporary file away to
the final path; a permanent failure stops immediately; a transient failure
consumes one attempt and retries. -/
def runAttempts (oracle : Nat → AttemptResult) :
    Nat → Nat → String → ExecResult
  | _, 0, lastReason => ⟨.Failed lastReason, 0, false⟩
  | idx, fuel + 1, _ =>
    match oracle idx with
    | .success => ⟨.Completed, 1, false⟩
    | .permanent r => ⟨.Failed r, 1, false⟩
    | .transient r =>
      let rest := runAttempts oracle (idx + 1) fuel r
      ⟨rest.outcome, rest.fetches + 1, rest.tempLeft⟩

/-- Modelled from the spec: `execute(job, ctx)` (section 4.4) with the
filesystem and network abstracted — `inIndex` is the Existing-Output Index's
answer for the job's logical name.  A skip issues no network activity;
otherwise up to `retryBudget + 1` attempts are made. -/
def execute (skipIfExists inIndex : Bool) (retryBudget : Nat)
    (oracle : Nat → AttemptResult) : ExecResult :=
  if skipIfExists && inIndex then ⟨.Skipped, 0, false⟩
  else runAttempts oracle 0 (retryBudget + 1) ""

theorem runAttempts_all_transient (oracle : Nat → AttemptResult)
    (reason : Nat → String) (h : ∀ k, oracle k = .transient (reason k)) :
    ∀ fuel idx s, runAttempts oracle idx (fuel + 1) s =
      ⟨.Failed (reason (idx + fuel)), fuel + 1, false⟩ := by
  intro fuel
  induction fuel with
  | zero =>
    intro idx s
    simp [runAttempts, h idx]
  | succ f ih =>
    intro idx s
    have hstep : runAttempts oracle idx (f + 1 + 1) s =
        ⟨(runAttempts oracle (idx + 1) (f + 1) (reason idx)).outcome,
         (runAttempts oracle (idx + 1) (f + 1) (reason idx)).fetches + 1,
         (runAttempts oracle (idx + 1) (f + 1) (reason idx)).tempLeft⟩ := by
      simp [runAttempts, h idx]
    rw [hstep, ih (idx + 1)]
    have harith : idx + 1 + f = idx + (f + 1) := by omega
    simp [harith]

/-- C5: a job that is not skipped and whose remote calls always come back as
transient failures issues exactly `retryBudget + 1` fetch attempts, ends as
`Failed` with the reason of the last attempt, and leaves no temporary file on
disk. -/
theorem executeExhaustsRetryBudget (skipIfExists inIndex : Bool)
    (retryBudget : Nat) (oracle : Nat → AttemptResult) (reason : Nat → String)
    (hns : (skipIfExists && inIndex) = false)
    (h : ∀ k, oracle k = .transient (reason k)) :
    execute skipIfExists inIndex retryBudget oracle =
      ⟨.Failed (reason retryBudget), retryBudget + 1, false⟩ := by
  unfold execute
  rw [hns]
  simpa using runAttempts_all_transient oracle reason h retryBudget 0 ""

/-- Witness for C5: retry budget 2, every attempt timing out, gives 3
fetches, a Failed outcome carrying the 3rd attempt's reason, and no leftover
temporary file. -/
theorem executeExhaustsRetryBudget_witness :
    execute false false 2 (fun k => .transient (toString k)) =
      ⟨.Failed (toString 2), 3, false⟩ :=
  executeExhaustsRetryBudget false false 2 _ (fun k => toString k) rfl
    (fun _ => rfl)

/-! ## Atomic-output discipline

Modelled from the spec: the executor writes downloaded bytes to a temporary
file co-located with the final output path and only an atomic rename of a
fully-formed temporary file ever touches the final path (sections 3 and 4.4,
steps 2b/2e/3). -/

/-- The content state of a path on disk. -/
inductive FileState where
  | absent
  | inProgress
  | complete
deriving DecidableEq, Repr

/-- The executor's view of the disk: the temporary file and the job's final
output path. -/
structure Disk where
  temp : FileState
  final : FileState
deriving DecidableEq, Repr

/-- Modelled from the spec: the filesystem operations the executor performs.
Streaming bytes lands in the temporary file; `finishTemp` marks the download
(and any remux) fully succeeded; failures delete the temporary file; the only
operation on the final path is the atomic rename of the temporary file. -/
inductive FsOp where
  | writeTemp
  | finishTemp
  | deleteTemp
  | renameTempToFinal
deriving DecidableEq, Repr

/-- Effect of one filesystem operation on the executor's disk view. -/
def FsOp.apply : FsOp → Disk → Disk
  | .writeTemp, d => { d with temp := .inProgress }
  | .finishTemp, d => { d with temp := .complete }
  | .deleteTemp, d => { d with temp := .absent }
  | .renameTempToFinal, d => { temp := .absent, final := d.temp }

/-- Modelled from the spec: the rename is performed only "on final success",
after the temporary file is fully formed; every other operation is always
available. -/
def FsOp.allowed : FsOp → Disk → Bool
  | .renameTempToFinal, d => d.temp = .complete
  | _, _ => true

/-- A sequence of filesystem operations each performed in a state that
permits it. -/
def validRun : Disk → List FsOp → Bool
  | _, [] => true
  | d, op :: ops => op.allowed d && validRun (op.apply d) ops

/-- The disk states an operation sequence passes through, the initial one
included. -/
def statesOf : Disk → List FsOp → List Disk
  | d, [] => [d]
  | d, op :: ops => d :: statesOf (op.apply d) ops

theorem validRun_final_intact (d : Disk) (ops : List FsOp)
    (hd : d.final ≠ .inProgress) (hv : validRun d ops = true) :
    ∀ d' ∈ statesOf d ops, d'.final ≠ FileState.inProgress := by
  induction ops generalizing d with
  | nil =>
    intro d' hd'
    simp [statesOf] at hd'
    simpa [hd'] using hd
  | cons op ops ih =>
    intro d' hd'
    simp only [validRun, Bool.and_eq_true] at hv
    simp only [statesOf, List.mem_cons] at hd'
    rcases hd' with rfl | hd'
    · exact hd
    · refine ih (op.apply d) ?_ hv.2 d' hd'
      cases op with
      | writeTemp => simpa [FsOp.apply] using hd
      | finishTemp => simpa [FsOp.apply] using hd
      | deleteTemp => simpa [FsOp.apply] using hd
      | renameTempToFinal =>
        have := hv.1
        simp only [FsOp.allowed, decide_eq_true_eq] at this
        simp [FsOp.apply, this]

/-- C6: starting from a disk with nothing at the final output path, any
sequence of executor filesystem operations obeying the
temporary-name-then-atomic-rename discipline never passes through a state in
which a partially-written file sits at the job's final output path. -/
theorem noPartialFileAtFinalPath (ops : List FsOp)
    (hv : validRun ⟨.absent, .absent⟩ ops = true) :
    ∀ d ∈ statesOf ⟨.absent, .absent⟩ ops, d.final ≠ FileState.inProgress :=
  validRun_final_intact ⟨.absent, .absent⟩ ops (by decide) hv

/-- Witness for C6 at the trace of one failed then one successful attempt —
stream, fail and delete, stream again, finish, rename — instantiated at the
trace's last disk state. -/
theorem noPartialFileAtFinalPath_witness :
    Disk.final ⟨FileState.absent, FileState.complete⟩ ≠ FileState.inProgress :=
  noPartialFileAtFinalPath
    [.writeTemp, .deleteTemp, .writeTemp, .finishTemp, .renameTempToFinal]
    (by decide) ⟨FileState.absent, FileState.complete⟩ (by decide)

/-! ## Bounded job queue

The queue's capacity is in the sources: `cmd/gad/main.go` line 130 builds the
task channel as `make(chan *downloaders.DownloadTaskWrapper, 50)`.  The
blocking-send/receive behaviour is that of a Go buffered channel, modelled
from the spec's `submit`/`close` contract (section 4.5). -/

/-- Capacity of the task channel, from `cmd/gad/main.go` line 130. -/
def queueCapacity : Nat := 50

/-- Modelled from the spec / Go buffered-channel semantics: a send on a full
buffer does not complete — the producer suspends — so the attempted submit
returns no new queue state; otherwise the job is appended. -/
def submitQ (q : List Nat) (x : Nat) : Option (List Nat) :=
  if q.length < queueCapacity then some (q ++ [x]) else none

/-- Modelled from the spec / Go buffered-channel semantics: a receive on an
empty buffer suspends; otherwise the oldest job is removed and handed to the
worker. -/
def consumeQ (q : List Nat) : Option (Nat × List Nat) :=
  match q with
  | [] => none
  | x :: xs => some (x, xs)

/-- One scheduler-side or producer-side queue event. -/
inductive ChanOp where
  | submit (x : Nat)
  | consume
deriving DecidableEq, Repr

/-- The queue contents after a sequence of events; an event that would
suspend leaves the queue unchanged (the suspended party has not completed its
operation). -/
def applyOps : List ChanOp → List Nat → List Nat
  | [], q => q
  | .submit x :: ops, q =>
    applyOps ops (match submitQ q x with | some q' => q' | none => q)
  | .consume :: ops, q =>
    applyOps ops (match consumeQ q with | some r => r.2 | none => q)

theorem applyOps_length_le (ops : List ChanOp) :
    ∀ q : List Nat, q.length ≤ queueCapacity →
      (applyOps ops q).length ≤ queueCapacity := by
  induction ops with
  | nil => intro q hq; simpa [applyOps] using hq
  | cons op ops ih =>
    intro q hq
    cases op with
    | submit x =>
      by_cases hlen : q.length < queueCapacity
      · have : (q ++ [x]).length ≤ queueCapacity := by
          simp only [List.length_append, List.length_cons, List.length_nil]
          omega
        simpa [applyOps, submitQ, hlen] using ih (q ++ [x]) this
      · simpa [applyOps, submitQ, hlen] using ih q hq
    | consume =>
      cases q with
      | nil => simpa [applyOps, consumeQ] using ih [] hq
      | cons y ys =>
        have : ys.length ≤ queueCapacity := by
          simp only [List.length_cons] at hq
          omega
        simpa [applyOps, consumeQ] using ih ys this

/-- C7: starting from the empty queue, no sequence of submit and consume
events ever leaves more than 50 not-yet-consumed jobs queued, and a submit
against a full queue does not complete — the producer blocks. -/
theorem queueBoundedAtFifty :
    (∀ ops : List ChanOp, (applyOps ops []).length ≤ 50) ∧
      (∀ (q : List Nat) (x : Nat), q.length = 50 → submitQ q x = none) := by
  constructor
  · intro ops
    exact applyOps_length_le ops [] (by simp [queueCapacity])
  · intro q x hq
    simp [submitQ, queueCapacity, hq]

end Gad
